import Mathlib

/-!
Verification of the ASCON core (ASCON-80pq-SIV, masked permutation, XOF init).

A shallow embedding, in Lean 4, of the core pieces of the ascon-arduino
cryptographic library:

* the ASCON-80pq-SIV AEAD mode (`ascon80pq_siv_encrypt` / `ascon80pq_siv_decrypt`,
  translated from the SIV source file), together with the sponge helpers it uses
  (modelled from the specification, since only their callers are in the excerpt);
* the 4-share masked permutation `ascon_x4_permute` (translated from the
  32-bit bit-sliced masked backend) with a spec-modelled unmasked bit-sliced
  permutation to compare against;
* the fixed-output-length XOF initialization (modelled from its header contract).

Machine words are `Nat` with explicit reduction modulo `2 ^ 64` for the sponge
world, and `BitVec 32` for the bit-sliced masked world.
-/

/-! ## Byte-level state model for the unmasked sponge world

The ASCON state is 320 bits, viewed as five 64-bit words `X0..X4`.  The
"regular" serialization is big-endian per word; the embedding stores the state
directly in regular form (so the conversions `ascon_from_regular` /
`ascon_to_regular` of the C code are the identity here), which the spec allows:
"the permutation's observable behaviour on a byte-addressable serialization of
the state is identical across representations". -/

structure AState where
  x0 : Nat
  x1 : Nat
  x2 : Nat
  x3 : Nat
  x4 : Nat
deriving DecidableEq, Repr

def wordAt (s : AState) : Nat → Nat
  | 0 => s.x0
  | 1 => s.x1
  | 2 => s.x2
  | 3 => s.x3
  | _ => s.x4

def setWord (s : AState) (w v : Nat) : AState :=
  match w with
  | 0 => { s with x0 := v }
  | 1 => { s with x1 := v }
  | 2 => { s with x2 := v }
  | 3 => { s with x3 := v }
  | _ => { s with x4 := v }

/-- Byte `i` of the regular (big-endian per 64-bit word) serialization. -/
def getByte (s : AState) (i : Nat) : Nat :=
  (wordAt s (i / 8) >>> (8 * (7 - i % 8))) &&& 0xFF

/-- XOR a byte into position `i` of the regular serialization. -/
def xorByte (s : AState) (i : Nat) (b : Nat) : AState :=
  setWord s (i / 8) (wordAt s (i / 8) ^^^ (b <<< (8 * (7 - i % 8))))

/-- XOR a list of bytes into consecutive state bytes starting at `off`. -/
def absorbBytes : AState → Nat → List Nat → AState
  | s, _, [] => s
  | s, off, b :: bs => absorbBytes (xorByte s off b) (off + 1) bs

/-- Read `n` bytes of a C byte buffer `l` starting at index `start`
(out-of-range reads give 0; the C callers never read out of range). -/
def bytesOf (l : List Nat) (start n : Nat) : List Nat :=
  (List.range n).map (fun i => l.getD (start + i) 0)

/-- Read `n` bytes of the regular serialization starting at state byte `off`. -/
def squeezeBytes (s : AState) (off n : Nat) : List Nat :=
  (List.range n).map (fun i => getByte s (off + i))

/-- Big-endian 64-bit word number `w` assembled from a 40-byte list. -/
def beWord (bs : List Nat) (w : Nat) : Nat :=
  (List.range 8).foldl (fun acc j => acc * 256 + bs.getD (8 * w + j) 0) 0

def stateOfBytes (bs : List Nat) : AState :=
  ⟨beWord bs 0, beWord bs 1, beWord bs 2, beWord bs 3, beWord bs 4⟩

/-! ## The unmasked ASCON permutation (64-bit formulation)

Modelled from the spec: `ascon_permute` is not part of the source excerpt
(only its callers are).  Section 4.1 of the specification defines it: rounds
`first_round..11`, each being round-constant addition to X2, the 5-bit χ-like
S-box, and the linear diffusion layer of XORed right-rotations. -/

def mask64 : Nat := 0xFFFFFFFFFFFFFFFF

def not64 (x : Nat) : Nat := x ^^^ mask64

def rotr64 (x n : Nat) : Nat := ((x >>> n) ||| (x <<< (64 - n))) % 2 ^ 64

/-- The twelve ASCON round constants (low byte; upper bits zero). -/
def RC64 : List Nat := [0xf0, 0xe1, 0xd2, 0xc3, 0xb4, 0xa5, 0x96, 0x87, 0x78, 0x69, 0x5a, 0x4b]

/-- Modelled from the spec: one round of the unmasked ASCON permutation
(round constant, substitution layer, linear diffusion; the S-box follows the
spec's formulation, with `X4 ^= (~T) & X1_old` using the X1 value prior to
X1's own update). -/
def asconRound (s : AState) (i : Nat) : AState :=
  let x2 := s.x2 ^^^ RC64.getD i 0
  let x0 := s.x0 ^^^ s.x4
  let x4 := s.x4 ^^^ s.x3
  let x2 := x2 ^^^ s.x1
  let t := x0
  let tx4 := not64 t &&& s.x1
  let x0 := x0 ^^^ (not64 s.x1 &&& x2)
  let x1 := s.x1 ^^^ (not64 x2 &&& s.x3)
  let x2 := x2 ^^^ (not64 s.x3 &&& x4)
  let x3 := s.x3 ^^^ (not64 x4 &&& t)
  let x4 := x4 ^^^ tx4
  let x1 := x1 ^^^ x0
  let x0 := x0 ^^^ x4
  let x3 := x3 ^^^ x2
  let x2 := not64 x2
  let x0 := x0 ^^^ rotr64 x0 19 ^^^ rotr64 x0 28
  let x1 := x1 ^^^ rotr64 x1 61 ^^^ rotr64 x1 39
  let x2 := x2 ^^^ rotr64 x2 1 ^^^ rotr64 x2 6
  let x3 := x3 ^^^ rotr64 x3 10 ^^^ rotr64 x3 17
  let x4 := x4 ^^^ rotr64 x4 7 ^^^ rotr64 x4 41
  ⟨x0, x1, x2, x3, x4⟩

/-- Modelled from the spec: `ascon_permute state first_round` applies rounds
`first_round..11` (no rounds when `first_round ≥ 12`). -/
def ascon_permute (s : AState) (fr : Nat) : AState :=
  (List.range' fr (12 - fr)).foldl asconRound s

/-! ## Sponge helpers used by the SIV mode

All are modelled from the spec (their bodies are not in the source excerpt;
only their call sites in the SIV file are). -/

/-- Modelled from the spec: `ascon_absorb_partial(state, data, offset, size)`
XORs `size` bytes of `data` into state bytes `[offset, offset+size)` — the
`(offset, size)` argument order is fixed by the spec's own description of the
SIV init ("XOR the 20-byte key into the capacity region starting at byte
offset 20 (partial absorb of length 20 at offset 20)" for the call with
arguments `(k, 20, ASCON80PQ_KEY_SIZE)`).  Named `ascon_absorb_at` here. -/
def ascon_absorb_at (s : AState) (data : List Nat) (off n : Nat) : AState :=
  absorbBytes s off (bytesOf data 0 n)

/-- Modelled from the spec: the separator XORs 0x01 into the last byte of the
state (the low bit of X4). -/
def ascon_separator (s : AState) : AState := xorByte s 39 0x01

/-- Modelled from the spec (§4.2 Absorb step): absorb full rate-8 blocks, each
followed by a permutation starting at `fr`; the trailing partial block (length
`0 ≤ L < 8`) is XORed left-aligned into X0 followed by the padding byte 0x80,
with a final permutation only when `lastPermute` is set. -/
def ascon_aead_absorb_8 (s : AState) (data : List Nat) (fr : Nat) (lastPermute : Bool) : AState :=
  if h : 8 ≤ data.length then
    ascon_aead_absorb_8 (ascon_permute (absorbBytes s 0 (data.take 8)) fr) (data.drop 8) fr
      lastPermute
  else
    let s1 := xorByte (absorbBytes s 0 data) data.length 0x80
    if lastPermute then ascon_permute s1 fr else s1
termination_by data.length
decreasing_by simp; omega

/-- Pointwise XOR of two byte lists (truncating at the shorter). -/
def zipXor (a b : List Nat) : List Nat := List.zipWith (fun x y => x ^^^ y) a b

def zeroBytes (n : Nat) : List Nat := List.replicate n 0

/-- Modelled from the spec: `ascon_aead_check_tag` compares the computed and
received tags in constant time; on mismatch the plaintext output (`m`, of
length `mlen`) is zeroed and failure (-1) is returned, otherwise 0. -/
def ascon_aead_check_tag (m : List Nat) (mlen : Nat) (computed received : List Nat) :
    Int × List Nat :=
  if computed = received then (0, m) else (-1, zeroBytes mlen)

/-! ## ASCON-80pq-SIV (translated from the SIV source file) -/

def ASCON80PQ_IV1 : Nat := 0xa1400c06

def ASCON80PQ_IV2 : Nat := 0xa2400c06

def bytesBE32 (iv : Nat) : List Nat :=
  [(iv >>> 24) &&& 0xFF, (iv >>> 16) &&& 0xFF, (iv >>> 8) &&& 0xFF, iv &&& 0xFF]

/-- Translation of `ascon80pq_siv_init`: write IV (4 bytes BE) ‖ key (20 bytes) ‖
nonce (16 bytes) into the 40-byte state, permute with first round 0, then XOR
the 20-byte key into state bytes [20..40). -/
def ascon80pq_siv_init (npub k : List Nat) (iv : Nat) : AState :=
  let b0 := bytesBE32 iv ++ bytesOf k 0 20 ++ bytesOf npub 0 16
  ascon_absorb_at (ascon_permute (stateOfBytes b0) 0) k 20 20

/-- Translation of `ascon_siv_encrypt_8_80pq`: OFB-mode keystream with an 8-byte
rate.  For each block: permute from `fr`, squeeze 8 bytes from offset 0, XOR
into the source.  Returns the final state and the processed bytes. -/
def ascon_siv_encrypt_8_80pq (s : AState) (src : List Nat) (fr : Nat) : AState × List Nat :=
  if h : 8 ≤ src.length then
    let s1 := ascon_permute s fr
    let r := ascon_siv_encrypt_8_80pq s1 (src.drop 8) fr
    (r.1, zipXor (squeezeBytes s1 0 8) (src.take 8) ++ r.2)
  else if src.length = 0 then (s, [])
  else
    let s1 := ascon_permute s fr
    (s1, zipXor (squeezeBytes s1 0 src.length) src)
termination_by src.length
decreasing_by simp; omega

/-- Translation of `ascon80pq_siv_encrypt`.  Returns `(*clen, c)`:
authentication phase with IV1, tag derivation, then the encryption phase with
IV2, the tag playing the role of the nonce. -/
def ascon80pq_siv_encrypt (m ad npub k : List Nat) : Nat × List Nat :=
  let s1 := ascon80pq_siv_init npub k ASCON80PQ_IV1
  let s2 := if 0 < ad.length then ascon_aead_absorb_8 s1 ad 6 true else s1
  let s3 := ascon_separator s2
  let s4 := ascon_aead_absorb_8 s3 m 6 false
  let s5 := ascon_absorb_at s4 k 8 20
  let s6 := ascon_permute s5 0
  let s7 := absorbBytes s6 24 (bytesOf k 4 16)
  let tag := squeezeBytes s7 24 16
  let se := ascon80pq_siv_init tag k ASCON80PQ_IV2
  (m.length + 16, (ascon_siv_encrypt_8_80pq se m 6).2 ++ tag)

/-- Translation of `ascon80pq_siv_decrypt`.  Here `m0` is the caller's plaintext
buffer before the call; the result is `(return value, buffer after the call,
*mlen if it was set)`.  The OFB phase writes the recovered bytes over the
start of the buffer; a failed tag check zeroes them. -/
def ascon80pq_siv_decrypt (m0 c ad npub k : List Nat) : Int × List Nat × Option Nat :=
  if c.length < 16 then (-1, m0, none)
  else
    let clen := c.length - 16
    let se := ascon80pq_siv_init (c.drop clen) k ASCON80PQ_IV2
    let md := (ascon_siv_encrypt_8_80pq se (c.take clen) 6).2
    let s1 := ascon80pq_siv_init npub k ASCON80PQ_IV1
    let s2 := if 0 < ad.length then ascon_aead_absorb_8 s1 ad 6 true else s1
    let s3 := ascon_separator s2
    let s4 := ascon_aead_absorb_8 s3 md 6 false
    let s5 := ascon_absorb_at s4 k 8 20
    let s6 := ascon_permute s5 0
    let s7 := absorbBytes s6 24 (bytesOf k 4 16)
    let chk := ascon_aead_check_tag md clen (squeezeBytes s7 24 16) (c.drop clen)
    (chk.1, chk.2 ++ m0.drop clen, some clen)

/-! ## XOF initialization (for the fixed-output-length contract) -/

/-- Modelled from the spec: the fixed-output-length ASCON-XOF IV encodes the
requested output length as a bit counter in the low 32-bit word of the IV
(`outlen = 0` gives the arbitrary-length IV 0x00400c0000000000). -/
def xofFixedIV (outlen : Nat) : Nat := 0x00400c0000000000 ||| (8 * outlen)

structure XofState where
  state : AState
  count : Nat
  mode : Nat
deriving DecidableEq, Repr

/-- Modelled from the spec: `ascon_xof_init` loads the fixed arbitrary-length
IV into X0, zero into X1..X4, and permutes once with first round 0. -/
def ascon_xof_init : XofState :=
  ⟨ascon_permute ⟨0x00400c0000000000, 0, 0, 0, 0⟩ 0, 0, 0⟩

/-- Modelled from the spec / header contract of `ascon_xof_init_fixed`: "If
outlen is greater than 536870911, it will be replaced with zero to indicate
arbitrary-length output instead." -/
def ascon_xof_init_fixed (outlen : Nat) : XofState :=
  let ol := if 536870911 < outlen then 0 else outlen
  ⟨ascon_permute ⟨xofFixedIV ol, 0, 0, 0, 0⟩ 0, 0, 0⟩

/-! ## The 4-share masked permutation world (32-bit bit-sliced)

`ascon_x4_permute` is translated from the masked C32 backend source.  Words
are `BitVec 32`; each 64-bit logical word is stored as an even-bits half and
an odd-bits half, and each half as four shares (`a`, `b`, `c`, `d`). -/

abbrev W32 := BitVec 32

/-- The rightRotateN family from the utility header (modelled; a plain rotation). -/
def rr32 (n : Nat) (x : W32) : W32 := x.rotateRight n

/-! Share-rotation scheme.  Modelled from the spec: "Shares are rotated
versions of one another under an implementation-defined share-rotation
scheme".  We fix rotation offsets 5, 10, 15 bits for shares 1, 2, 3 relative
to share 0; `rotate_shareJ_K` re-aligns a word from share K's alignment to
share J's, and `unrotate` is its inverse. -/

def ascon_mask32_rotate_share1_0 (x : W32) : W32 := rr32 5 x

def ascon_mask32_unrotate_share1_0 (x : W32) : W32 := rr32 27 x

def ascon_mask32_rotate_share2_0 (x : W32) : W32 := rr32 10 x

def ascon_mask32_unrotate_share2_0 (x : W32) : W32 := rr32 22 x

def ascon_mask32_rotate_share2_1 (x : W32) : W32 := rr32 5 x

def ascon_mask32_unrotate_share2_1 (x : W32) : W32 := rr32 27 x

def ascon_mask32_rotate_share3_0 (x : W32) : W32 := rr32 15 x

def ascon_mask32_unrotate_share3_0 (x : W32) : W32 := rr32 17 x

def ascon_mask32_rotate_share3_1 (x : W32) : W32 := rr32 10 x

def ascon_mask32_unrotate_share3_1 (x : W32) : W32 := rr32 22 x

def ascon_mask32_rotate_share3_2 (x : W32) : W32 := rr32 5 x

def ascon_mask32_unrotate_share3_2 (x : W32) : W32 := rr32 27 x

/-- One 32-bit half-word in 4-share representation. -/
structure Sh where
  a : W32
  b : W32
  c : W32
  d : W32
deriving DecidableEq, Repr

/-- Unsharing: XOR of the four shares, each re-aligned to share 0. -/
def unsh (x : Sh) : W32 :=
  x.a ^^^ ascon_mask32_unrotate_share1_0 x.b ^^^ ascon_mask32_unrotate_share2_0 x.c ^^^
    ascon_mask32_unrotate_share3_0 x.d

/-- Share-wise XOR (`x ^= y` on all four share channels). -/
def shXor (x y : Sh) : Sh := ⟨x.a ^^^ y.a, x.b ^^^ y.b, x.c ^^^ y.c, x.d ^^^ y.d⟩

/-- The `and_not_xor` macro (translated): `x ^= (~y) & z` on a 4-share
representation, as the 4×4 cross-share expansion. -/
def and_not_xor (x y z : Sh) : Sh :=
  ⟨x.a ^^^ (~~~y.a &&& z.a) ^^^ (ascon_mask32_unrotate_share1_0 y.b &&& z.a) ^^^
      (ascon_mask32_unrotate_share2_0 y.c &&& z.a) ^^^
      (ascon_mask32_unrotate_share3_0 y.d &&& z.a),
    x.b ^^^ (ascon_mask32_rotate_share1_0 (~~~y.a) &&& z.b) ^^^ (y.b &&& z.b) ^^^
      (ascon_mask32_unrotate_share2_1 y.c &&& z.b) ^^^
      (ascon_mask32_unrotate_share3_1 y.d &&& z.b),
    x.c ^^^ (ascon_mask32_rotate_share2_0 (~~~y.a) &&& z.c) ^^^
      (ascon_mask32_rotate_share2_1 y.b &&& z.c) ^^^ (y.c &&& z.c) ^^^
      (ascon_mask32_unrotate_share3_2 y.d &&& z.c),
    x.d ^^^ (ascon_mask32_rotate_share3_0 (~~~y.a) &&& z.d) ^^^
      (ascon_mask32_rotate_share3_1 y.b &&& z.d) ^^^
      (ascon_mask32_rotate_share3_2 y.c &&& z.d) ^^^ (y.d &&& z.d)⟩

/-- A masked 64-bit logical word: even-bit half and odd-bit half, each shared. -/
structure MW where
  e : Sh
  o : Sh
deriving DecidableEq, Repr

structure MState where
  x0 : MW
  x1 : MW
  x2 : MW
  x3 : MW
  x4 : MW
deriving DecidableEq, Repr

/-- The six 32-bit words of caller-supplied randomness (the `preserve` pool):
the `t0` reshare word's share channels a, b, c for the even and odd halves. -/
structure Pool where
  ae : W32
  ao : W32
  be : W32
  bo : W32
  ce : W32
  co : W32
deriving DecidableEq, Repr

/-- The source's pre-inverted round-constant table (`ROUND_CONSTANT_PAIR`
yields `(~rc1, ~rc2)`). -/
def RCX4 : List (W32 × W32) :=
  [(~~~(12#32), ~~~(12#32)), (~~~(9#32), ~~~(12#32)), (~~~(12#32), ~~~(9#32)),
    (~~~(9#32), ~~~(9#32)), (~~~(6#32), ~~~(12#32)), (~~~(3#32), ~~~(12#32)),
    (~~~(6#32), ~~~(9#32)), (~~~(3#32), ~~~(9#32)), (~~~(12#32), ~~~(6#32)),
    (~~~(9#32), ~~~(6#32)), (~~~(12#32), ~~~(3#32)), (~~~(9#32), ~~~(3#32))]

/-- Results of the substitution layer on one half: the five shared words and
the updated reshare word `t0`. -/
structure SubM where
  y0 : Sh
  y1 : Sh
  y2 : Sh
  y3 : Sh
  y4 : Sh
  t0 : Sh
deriving DecidableEq, Repr

/-- The substitution layer of `ascon_x4_permute` on one half (even or odd),
translated line by line: pre-inverted round constant into the first share of
X2, the initial XORs, formation of `t0`'s fourth share from the entropy
channels, the five `and_not_xor` steps, folding `t0` into X4, and the final
XORs.  (The "NOT x2" of the plain S-box is deferred to the next round's
pre-inverted constant.) -/
def mSubst (rc : W32) (x0 x1 x2 x3 x4 : Sh) (ta tb tc : W32) : SubM :=
  let x2 := ⟨x2.a ^^^ rc, x2.b, x2.c, x2.d⟩
  let x0 := shXor x0 x4
  let x4 := shXor x4 x3
  let x2 := shXor x2 x1
  let t1 := x0
  let t0 : Sh := ⟨ta, tb, tc,
    ascon_mask32_rotate_share3_0 ta ^^^ ascon_mask32_rotate_share3_1 tb ^^^
      ascon_mask32_rotate_share3_2 tc⟩
  let t0 := and_not_xor t0 x0 x1
  let x0 := and_not_xor x0 x1 x2
  let x1 := and_not_xor x1 x2 x3
  let x2 := and_not_xor x2 x3 x4
  let x3 := and_not_xor x3 x4 t1
  let x4 := shXor x4 t0
  let x1 := shXor x1 x0
  let x0 := shXor x0 x4
  let x3 := shXor x3 x2
  ⟨x0, x1, x2, x3, x4, t0⟩

/-! The linear diffusion layer, word by word (`linear(w)` translated; the
same function is applied to each share channel). -/

def lin0 (e o : W32) : W32 × W32 :=
  let t0 := e ^^^ rr32 4 o
  let t1 := o ^^^ rr32 5 e
  (e ^^^ rr32 9 t1, o ^^^ rr32 10 t0)

def lin1 (e o : W32) : W32 × W32 :=
  let t2 := e ^^^ rr32 11 e
  let t3 := o ^^^ rr32 11 o
  (e ^^^ rr32 19 t3, o ^^^ rr32 20 t2)

def lin2 (e o : W32) : W32 × W32 :=
  let t4 := e ^^^ rr32 2 o
  let t5 := o ^^^ rr32 3 e
  (e ^^^ t5, o ^^^ rr32 1 t4)

def lin3 (e o : W32) : W32 × W32 :=
  let t6 := e ^^^ rr32 3 o
  let t7 := o ^^^ rr32 4 e
  (e ^^^ rr32 5 t6, o ^^^ rr32 5 t7)

def lin4 (e o : W32) : W32 × W32 :=
  let t8 := e ^^^ rr32 17 e
  let t9 := o ^^^ rr32 17 o
  (e ^^^ rr32 3 t9, o ^^^ rr32 4 t8)

/-- Apply a two-argument word function to each share channel of a masked
word's two halves (the masked linear layer runs the same code on each of the
four shares). -/
def chanMap2 (f : W32 → W32 → W32 × W32) (we wo : Sh) : Sh × Sh :=
  (⟨(f we.a wo.a).1, (f we.b wo.b).1, (f we.c wo.c).1, (f we.d wo.d).1⟩,
    ⟨(f we.a wo.a).2, (f we.b wo.b).2, (f we.c wo.c).2, (f we.d wo.d).2⟩)

/-- One full round of `ascon_x4_permute` without the end-of-round rotation of
the entropy pool: substitution on the even half, substitution on the odd half,
then the linear layer on every share channel. -/
def x4RoundCore (rc : W32 × W32) (sp : MState × Pool) : MState × Pool :=
  let s := sp.1
  let p := sp.2
  let re := mSubst rc.1 s.x0.e s.x1.e s.x2.e s.x3.e s.x4.e p.ae p.be p.ce
  let ro := mSubst rc.2 s.x0.o s.x1.o s.x2.o s.x3.o s.x4.o p.ao p.bo p.co
  let w0 := chanMap2 lin0 re.y0 ro.y0
  let w1 := chanMap2 lin1 re.y1 ro.y1
  let w2 := chanMap2 lin2 re.y2 ro.y2
  let w3 := chanMap2 lin3 re.y3 ro.y3
  let w4 := chanMap2 lin4 re.y4 ro.y4
  (⟨⟨w0.1, w0.2⟩, ⟨w1.1, w1.2⟩, ⟨w2.1, w2.2⟩, ⟨w3.1, w3.2⟩, ⟨w4.1, w4.2⟩⟩,
    ⟨re.t0.a, ro.t0.a, re.t0.b, ro.t0.b, re.t0.c, ro.t0.c⟩)

/-- End-of-round rotation of the entropy pool: channels a, b, c rotate right
by 7, 13 and 29 bits respectively. -/
def rotPool (p : Pool) : Pool :=
  ⟨rr32 7 p.ae, rr32 7 p.ao, rr32 13 p.be, rr32 13 p.bo, rr32 29 p.ce, rr32 29 p.co⟩

/-- One full round including the pool rotation, for round index `i`. -/
def x4Round (i : Nat) (sp : MState × Pool) : MState × Pool :=
  let r := x4RoundCore (RCX4.getD i (0#32, 0#32)) sp
  (r.1, rotPool r.2)

/-- Invert the first share of both halves of X2 (done before the first round
and again when storing, to compensate for the pre-inverted constants). -/
def invertA2 (s : MState) : MState :=
  { s with x2 := ⟨⟨~~~s.x2.e.a, s.x2.e.b, s.x2.e.c, s.x2.e.d⟩,
      ⟨~~~s.x2.o.a, s.x2.o.b, s.x2.o.c, s.x2.o.d⟩⟩ }

/-- Translation of `ascon_x4_permute`: load, pre-invert X2's first share, run
rounds `first_round..11` threading the entropy pool, write the final pool back,
and store with a final re-inversion of X2's first share. -/
def ascon_x4_permute (s : MState) (first_round : Nat) (p : Pool) : MState × Pool :=
  let r := (List.range' first_round (12 - first_round)).foldl (fun sp i => x4Round i sp)
    (invertA2 s, p)
  (invertA2 r.1, r.2)

/-! ## Spec-modelled unmasked bit-sliced permutation

Modelled from the spec: §4.1 defines the unmasked permutation on five 64-bit
words and states that "a bit-sliced 32-bit implementation that splits each
64-bit word into even-indexed and odd-indexed bit halves and substitutes the
64-bit rotations with the equivalent pair of 32-bit rotations is compliant".
The definitions below are that compliant bit-sliced form, on the same
even/odd half-word representation the masked state uses, with the S-box
written exactly as in the spec (plain round constants and an explicit
complement of X2 at the end of the substitution layer). -/

/-- Even-half round constants: the even-indexed bits of 0xf0, 0xe1, ..., 0x4b. -/
def sRCe : List W32 := [12, 9, 12, 9, 6, 3, 6, 3, 12, 9, 12, 9]

/-- Odd-half round constants: the odd-indexed bits of 0xf0, 0xe1, ..., 0x4b. -/
def sRCo : List W32 := [12, 12, 9, 9, 12, 12, 9, 9, 6, 6, 3, 3]

structure SubS where
  y0 : W32
  y1 : W32
  y2 : W32
  y3 : W32
  y4 : W32
deriving DecidableEq, Repr

/-- The spec's substitution layer on one 32-bit half: round constant into X2,
initial XORs, χ-like layer (with `X4 ^= (~T) & X1_old` computed from the X1
value prior to X1's update), final XORs, and the complement of X2. -/
def sSubst (rc : W32) (x0 x1 x2 x3 x4 : W32) : SubS :=
  let x2 := x2 ^^^ rc
  let x0 := x0 ^^^ x4
  let x4 := x4 ^^^ x3
  let x2 := x2 ^^^ x1
  let t := x0
  let tx4 := ~~~x0 &&& x1
  let x0 := x0 ^^^ (~~~x1 &&& x2)
  let x1 := x1 ^^^ (~~~x2 &&& x3)
  let x2 := x2 ^^^ (~~~x3 &&& x4)
  let x3 := x3 ^^^ (~~~x4 &&& t)
  let x4 := x4 ^^^ tx4
  let x1 := x1 ^^^ x0
  let x0 := x0 ^^^ x4
  let x3 := x3 ^^^ x2
  let x2 := ~~~x2
  ⟨x0, x1, x2, x3, x4⟩

/-- A bit-sliced 64-bit logical word: even-bit half and odd-bit half. -/
structure SW where
  e : W32
  o : W32
deriving DecidableEq, Repr

structure SState where
  x0 : SW
  x1 : SW
  x2 : SW
  x3 : SW
  x4 : SW
deriving DecidableEq, Repr

/-- One round of the unmasked bit-sliced permutation. -/
def sRound (i : Nat) (s : SState) : SState :=
  let re := sSubst (sRCe.getD i 0) s.x0.e s.x1.e s.x2.e s.x3.e s.x4.e
  let ro := sSubst (sRCo.getD i 0) s.x0.o s.x1.o s.x2.o s.x3.o s.x4.o
  ⟨⟨(lin0 re.y0 ro.y0).1, (lin0 re.y0 ro.y0).2⟩,
    ⟨(lin1 re.y1 ro.y1).1, (lin1 re.y1 ro.y1).2⟩,
    ⟨(lin2 re.y2 ro.y2).1, (lin2 re.y2 ro.y2).2⟩,
    ⟨(lin3 re.y3 ro.y3).1, (lin3 re.y3 ro.y3).2⟩,
    ⟨(lin4 re.y4 ro.y4).1, (lin4 re.y4 ro.y4).2⟩⟩

/-- Modelled from the spec: the unmasked ASCON permutation in the compliant
bit-sliced 32-bit form, rounds `first_round..11`. -/
def ascon_permute_c32 (s : SState) (first_round : Nat) : SState :=
  (List.range' first_round (12 - first_round)).foldl (fun t i => sRound i t) s

/-- Unshare a masked word. -/
def unshMW (w : MW) : SW := ⟨unsh w.e, unsh w.o⟩

/-- Unshare a whole masked state. -/
def unshState (s : MState) : SState :=
  ⟨unshMW s.x0, unshMW s.x1, unshMW s.x2, unshMW s.x3, unshMW s.x4⟩

/-! ## Claim-side definitions

Named decompositions of the SIV pipeline, written from the spec's wording, to
be compared with the translated functions above. -/

/-- The authentication-phase state after init with IV1, absorbing the
associated data (when non-empty), the separator, and the payload `x`. -/
def sivAuthState (x ad npub k : List Nat) : AState :=
  let s1 := ascon80pq_siv_init npub k ASCON80PQ_IV1
  let s2 := if 0 < ad.length then ascon_aead_absorb_8 s1 ad 6 true else s1
  ascon_aead_absorb_8 (ascon_separator s2) x 6 false

/-- The SIV tag pipeline as the code performs it: XOR key bytes [0..20) into
state bytes [8..28) (partial absorb of length 20 at offset 8), permute with
first round 0, XOR key bytes [4..20) into state bytes [24..40), squeeze the
16-byte tag from state bytes [24..40). -/
def sivTag (x ad npub k : List Nat) : List Nat :=
  let s7 := absorbBytes (ascon_permute (ascon_absorb_at (sivAuthState x ad npub k) k 8 20) 0) 24
    (bytesOf k 4 16)
  squeezeBytes s7 24 16

/-- The tag pipeline as claim C3 words it: only key bytes [0..8) absorbed, at
offset 8 (length 8 at offset 8); the rest identical to `sivTag`. -/
def sivTagClaimed (x ad npub k : List Nat) : List Nat :=
  let s7 := absorbBytes (ascon_permute (ascon_absorb_at (sivAuthState x ad npub k) k 8 8) 0) 24
    (bytesOf k 4 16)
  squeezeBytes s7 24 16

/-- The OFB keystream from state `s`: `n` bytes, produced 8 at a time by
permuting from `fr` and squeezing the rate. -/
def sivKeystream (s : AState) (fr n : Nat) : List Nat :=
  if n = 0 then []
  else
    let s1 := ascon_permute s fr
    if n ≤ 8 then squeezeBytes s1 0 n
    else squeezeBytes s1 0 8 ++ sivKeystream s1 fr (n - 8)
termination_by n
decreasing_by omega

/-- Rounds of `ascon_x4_permute` restructured per the spec's wording for the
entropy pool: the reshare word is rotated (7, 13, 29 bits per share channel)
between consecutive rounds, and the final updated pool is written back on
return. -/
def x4AltGo (sp : MState × Pool) : List Nat → MState × Pool
  | [] => sp
  | [i] => x4RoundCore (RCX4.getD i (0#32, 0#32)) sp
  | i :: rest =>
      let r := x4RoundCore (RCX4.getD i (0#32, 0#32)) sp
      x4AltGo (r.1, rotPool r.2) rest

/-- Variant of `ascon_x4_permute` with the between-rounds pool-rotation structure made
explicit: rotate between consecutive rounds, then rotate the final updated
pool once more as part of the write-back. -/
def ascon_x4_permute_alt (s : MState) (first_round : Nat) (p : Pool) : MState × Pool :=
  let rs := List.range' first_round (12 - first_round)
  let r := x4AltGo (invertA2 s, p) rs
  if rs.isEmpty then (invertA2 r.1, r.2) else (invertA2 r.1, rotPool r.2)

/-- Complement both halves of the sliced word X2 (relating the pre-inverted
masked representation to the plain sliced state). -/
def invE2 (s : SState) : SState := { s with x2 := ⟨~~~s.x2.e, ~~~s.x2.o⟩ }

/-! ## Helper lemmas: lengths and XOR cancellation -/

theorem length_squeezeBytes (s : AState) (off n : Nat) : (squeezeBytes s off n).length = n := by
  simp [squeezeBytes]

theorem length_zipXor (a b : List Nat) : (zipXor a b).length = min a.length b.length := by
  simp [zipXor]

theorem zipXor_cancel : ∀ a b : List Nat, zipXor a (zipXor a b) = b.take a.length := by
  intro a
  induction a with
  | nil => intro b; simp [zipXor]
  | cons x xs ih =>
    intro b
    cases b with
    | nil => simp [zipXor]
    | cons y ys => simp [zipXor, List.take] at ih ⊢; exact ⟨Nat.xor_cancel_left x y, ih ys⟩

theorem length_sivKeystream (fr : Nat) :
    ∀ (n : Nat) (s : AState), (sivKeystream s fr n).length = n := by
  intro n
  induction n using Nat.strong_induction_on with
  | _ n ih =>
    intro s
    rw [sivKeystream]
    by_cases h0 : n = 0
    · simp [h0]
    · rw [if_neg h0]
      by_cases h8 : n ≤ 8
      · simp [h8, length_squeezeBytes]
      · rw [if_neg h8]
        simp only [List.length_append, length_squeezeBytes]
        rw [ih (n - 8) (by omega)]
        omega

theorem zipXor_append_left : ∀ a l b : List Nat,
    zipXor (a ++ b) l = zipXor a (l.take a.length) ++ zipXor b (l.drop a.length) := by
  intro a
  induction a with
  | nil => intro l b; simp [zipXor]
  | cons x xs ih =>
    intro l b
    cases l with
    | nil => simp [zipXor]
    | cons y ys => simp only [List.cons_append, zipXor, List.zipWith, List.length_cons,
        List.take, List.drop]; exact congrArg _ (ih ys b)

theorem enc8_length (fr : Nat) :
    ∀ (n : Nat) (s : AState) (src : List Nat), src.length = n →
      ((ascon_siv_encrypt_8_80pq s src fr).2).length = src.length := by
  intro n
  induction n using Nat.strong_induction_on with
  | _ n ih =>
    intro s src hlen
    rw [ascon_siv_encrypt_8_80pq]
    by_cases h8 : 8 ≤ src.length
    · rw [dif_pos h8]
      simp only [List.length_append, length_zipXor, length_squeezeBytes, List.length_take]
      rw [ih (src.length - 8) (by omega) _ (src.drop 8) (by simp)]
      simp
      omega
    · rw [dif_neg h8]
      by_cases hz : src.length = 0
      · simp [hz]
      · rw [if_neg hz]
        simp [length_zipXor, length_squeezeBytes]

theorem enc8_data (fr : Nat) :
    ∀ (n : Nat) (s : AState) (src : List Nat), src.length = n →
      (ascon_siv_encrypt_8_80pq s src fr).2 = zipXor (sivKeystream s fr src.length) src := by
  intro n
  induction n using Nat.strong_induction_on with
  | _ n ih =>
    intro s src hlen
    rw [ascon_siv_encrypt_8_80pq, sivKeystream]
    by_cases h8 : 8 ≤ src.length
    · rw [dif_pos h8, if_neg (by omega)]
      dsimp only
      rw [ih (src.length - 8) (by omega) _ (src.drop 8) (by simp)]
      by_cases heq : src.length ≤ 8
      · have hsrc8 : src.length = 8 := by omega
        have hdrop : src.drop 8 = [] := by
          apply List.eq_nil_of_length_eq_zero; simp [hsrc8]
        rw [if_pos heq, hdrop]
        simp [sivKeystream, zipXor, hsrc8, List.take_of_length_le (le_of_eq hsrc8)]
      · rw [if_neg heq]
        rw [zipXor_append_left, length_squeezeBytes]
        simp [List.length_drop]
    · rw [dif_neg h8]
      by_cases hz : src.length = 0
      · have : src = [] := List.eq_nil_of_length_eq_zero hz
        simp [this, zipXor]
      · rw [if_neg hz, if_neg hz, if_pos (by omega : src.length ≤ 8)]

theorem enc8_involution (s : AState) (src : List Nat) (fr : Nat) :
    (ascon_siv_encrypt_8_80pq s (ascon_siv_encrypt_8_80pq s src fr).2 fr).2 = src := by
  rw [enc8_data fr _ s _ rfl, enc8_data fr _ s src rfl]
  rw [length_zipXor, length_sivKeystream, Nat.min_self]
  rw [zipXor_cancel, length_sivKeystream, List.take_length]

theorem length_sivTag (x ad npub k : List Nat) : (sivTag x ad npub k).length = 16 := by
  simp [sivTag, length_squeezeBytes]

/-- The encryption function decomposes as OFB data (from the state initialized
with the tag as nonce) followed by the tag. -/
theorem encrypt_decomp (m ad npub k : List Nat) :
    ascon80pq_siv_encrypt m ad npub k =
      (m.length + 16,
        (ascon_siv_encrypt_8_80pq (ascon80pq_siv_init (sivTag m ad npub k) k ASCON80PQ_IV2) m
          6).2 ++ sivTag m ad npub k) := rfl

/-- The decryption function decomposes as: recover the OFB data from the
received tag, recompute the tag with the same pipeline, and compare. -/
theorem decrypt_decomp (m0 c ad npub k : List Nat) (h : ¬c.length < 16) :
    ascon80pq_siv_decrypt m0 c ad npub k =
      (if sivTag ((ascon_siv_encrypt_8_80pq (ascon80pq_siv_init (c.drop (c.length - 16)) k
            ASCON80PQ_IV2) (c.take (c.length - 16)) 6).2) ad npub k = c.drop (c.length - 16)
        then ((0 : Int),
          (ascon_siv_encrypt_8_80pq (ascon80pq_siv_init (c.drop (c.length - 16)) k
            ASCON80PQ_IV2) (c.take (c.length - 16)) 6).2 ++ m0.drop (c.length - 16),
          some (c.length - 16))
        else (-1, zeroBytes (c.length - 16) ++ m0.drop (c.length - 16), some (c.length - 16))) := by
  unfold ascon80pq_siv_decrypt ascon_aead_check_tag
  rw [if_neg h]
  simp only [sivTag, sivAuthState]
  split <;> (split <;> rfl)

/-! ## Claim theorems for the SIV mode and XOF initialization -/

/-- C7: The OFB keystream generation is identical in encryption and
decryption (decryption calls the same `ascon_siv_encrypt_8_80pq`); for every
starting state `s` and byte string `src`, running it from `s` on its own
output from an equal state `s` returns the original `src` — the operation is
an involution on the data for a fixed starting state. -/
theorem siv_ofb_involution (s : AState) (src : List Nat) (fr : Nat) :
    (ascon_siv_encrypt_8_80pq s (ascon_siv_encrypt_8_80pq s src fr).2 fr).2 = src :=
  enc8_involution s src fr

/-- C6: In every run of `ascon80pq_siv_encrypt`, the 16-byte tag squeezed in
the authentication phase is byte-for-byte the nonce passed to the
encryption-phase initialization (IV2): the ciphertext is the OFB data produced
from `ascon80pq_siv_init (sivTag …) k IV2` followed by that same tag. -/
theorem siv_tag_is_encryption_nonce (m ad npub k : List Nat) :
    ascon80pq_siv_encrypt m ad npub k =
      (m.length + 16,
        (ascon_siv_encrypt_8_80pq (ascon80pq_siv_init (sivTag m ad npub k) k ASCON80PQ_IV2) m
          6).2 ++ sivTag m ad npub k) :=
  encrypt_decomp m ad npub k

/-- C5: `ascon80pq_siv_encrypt` sets `*clen = mlen + 16` and lays the
ciphertext out as the plaintext XORed with the OFB keystream in `c[0..mlen)`
followed by the 16-byte authentication tag in `c[mlen..mlen+16)`. -/
theorem siv_encrypt_layout (m ad npub k : List Nat) :
    ascon80pq_siv_encrypt m ad npub k =
      (m.length + 16,
        zipXor (sivKeystream (ascon80pq_siv_init (sivTag m ad npub k) k ASCON80PQ_IV2) 6
          m.length) m ++ sivTag m ad npub k) := by
  rw [encrypt_decomp, enc8_data 6 m.length _ m rfl]

/-- C1: decrypting the output of `ascon80pq_siv_encrypt` with the same
associated data, nonce (16 bytes) and key (20 bytes) succeeds (returns 0),
sets `*mlen` to `|m|`, and writes exactly `m` into the output buffer. -/
theorem siv_encrypt_then_decrypt (m ad npub k m0 : List Nat) (hn : npub.length = 16)
    (hk : k.length = 20) :
    ascon80pq_siv_decrypt m0 (ascon80pq_siv_encrypt m ad npub k).2 ad npub k
      = (0, m ++ m0.drop m.length, some m.length) := by
  rw [encrypt_decomp]
  have hdlen : ((ascon_siv_encrypt_8_80pq (ascon80pq_siv_init (sivTag m ad npub k) k
      ASCON80PQ_IV2) m 6).2).length = m.length := enc8_length 6 m.length _ m rfl
  have htlen : (sivTag m ad npub k).length = 16 := length_sivTag m ad npub k
  rw [decrypt_decomp _ _ _ _ _ (by simp [hdlen, htlen])]
  have h1 : ((ascon_siv_encrypt_8_80pq (ascon80pq_siv_init (sivTag m ad npub k) k
        ASCON80PQ_IV2) m 6).2 ++ sivTag m ad npub k).length - 16
      = ((ascon_siv_encrypt_8_80pq (ascon80pq_siv_init (sivTag m ad npub k) k
        ASCON80PQ_IV2) m 6).2).length := by
    simp [htlen]
  rw [h1, List.drop_left, List.take_left, enc8_involution, if_pos rfl, hdlen]

/-- C4 (counterexample): on a ciphertext shorter than the 16-byte tag,
`ascon80pq_siv_decrypt` returns the failure result -1 but leaves the
plaintext output buffer untouched — here the buffer `[1]` stays `[1]`, which
is not the zeroed buffer the claim asserts. -/
theorem siv_decrypt_short_not_zeroed :
    ascon80pq_siv_decrypt [1] [] [] [] [] = (-1, [1], none) ∧ ([1] : List Nat) ≠ [0] := by
  exact ⟨rfl, by decide⟩

/-- C4 (amended): for every ciphertext shorter than 16 bytes,
`ascon80pq_siv_decrypt` returns the explicit failure result -1 immediately,
without setting `*mlen` and without writing to (in particular without
zeroing) the plaintext output buffer. -/
theorem siv_decrypt_short (m0 c ad npub k : List Nat) (h : c.length < 16) :
    ascon80pq_siv_decrypt m0 c ad npub k = (-1, m0, none) := by
  unfold ascon80pq_siv_decrypt
  rw [if_pos h]

theorem siv_decrypt_short_witness :
    ([] : List Nat).length < 16 ∧ ascon80pq_siv_decrypt [1] [] [2] [3] [4] = (-1, [1], none) :=
  ⟨by decide, siv_decrypt_short [1] [] [2] [3] [4] (by decide)⟩

/-- C9: for every `outlen` greater than 536870911 (2^29 - 1),
`ascon_xof_init_fixed` behaves exactly as arbitrary-length initialization
(the same state as `outlen = 0`, i.e. `ascon_xof_init`). -/
theorem xof_init_fixed_overflow (outlen : Nat) (h : 536870911 < outlen) :
    ascon_xof_init_fixed outlen = ascon_xof_init := by
  unfold ascon_xof_init_fixed ascon_xof_init
  rw [if_pos h]
  simp [xofFixedIV]

theorem xof_init_fixed_overflow_witness :
    536870911 < 536870912 ∧ ascon_xof_init_fixed 536870912 = ascon_xof_init :=
  ⟨by decide, xof_init_fixed_overflow 536870912 (by decide)⟩

set_option maxRecDepth 10000 in
/-- C3 (counterexample): the tag actually produced by `ascon80pq_siv_encrypt`
differs, at this concrete key and nonce (with empty `m` and `ad`, so the whole
ciphertext is the tag), from the tag that the claim's description would
produce (absorbing only key bytes [0..8) at offset 8).  The code's call
`ascon_absorb_partial(&state, k, 8, ASCON80PQ_KEY_SIZE)` absorbs all 20 key
bytes at offset 8, not 8 bytes. -/
theorem siv_tag_not_claimed_pipeline :
    (ascon80pq_siv_encrypt [] []
        [0, 1, 2, 3, 4, 5, 6, 7, 8, 9, 10, 11, 12, 13, 14, 15]
        [0, 1, 2, 3, 4, 5, 6, 7, 8, 9, 10, 11, 12, 13, 14, 15, 16, 17, 18, 19]).2
      ≠ sivTagClaimed [] []
        [0, 1, 2, 3, 4, 5, 6, 7, 8, 9, 10, 11, 12, 13, 14, 15]
        [0, 1, 2, 3, 4, 5, 6, 7, 8, 9, 10, 11, 12, 13, 14, 15, 16, 17, 18, 19] := by
  rw [ascon80pq_siv_encrypt, ascon_aead_absorb_8, ascon_siv_encrypt_8_80pq]
  norm_num
  rw [sivTagClaimed, sivAuthState, ascon_aead_absorb_8]
  norm_num
  decide

/-- C3 (amended): during tag derivation in `ascon80pq_siv_encrypt`, key bytes
[0..20) — a partial absorb of length 20 at state byte offset 8 — are XORed
into the state before the permute with first round 0; then key bytes [4..20)
are XORed into state bytes [24..40) and the 16-byte tag is squeezed from
state bytes [24..40) (that is the `sivTag` pipeline); and identically during
tag recomputation in `ascon80pq_siv_decrypt`: decryption succeeds exactly
when the same `sivTag` pipeline applied to the recovered plaintext equals the
received tag. -/
theorem siv_tag_pipeline (m ad npub k m0 c : List Nat) (h : 16 ≤ c.length) :
    (ascon80pq_siv_encrypt m ad npub k).2.drop m.length = sivTag m ad npub k ∧
      ((ascon80pq_siv_decrypt m0 c ad npub k).1 = 0 ↔
        sivTag ((ascon_siv_encrypt_8_80pq (ascon80pq_siv_init (c.drop (c.length - 16)) k
          ASCON80PQ_IV2) (c.take (c.length - 16)) 6).2) ad npub k = c.drop (c.length - 16)) := by
  constructor
  · rw [encrypt_decomp]
    have hdlen : ((ascon_siv_encrypt_8_80pq (ascon80pq_siv_init (sivTag m ad npub k) k
        ASCON80PQ_IV2) m 6).2).length = m.length := enc8_length 6 m.length _ m rfl
    conv_lhs => rw [← hdlen]
    exact List.drop_left _ _
  · rw [decrypt_decomp _ _ _ _ _ (by omega)]
    constructor
    · intro h0
      by_contra hne
      rw [if_neg hne] at h0
      simp at h0
    · intro heq
      rw [if_pos heq]

theorem siv_tag_pipeline_witness :
    16 ≤ (List.replicate 16 (0 : Nat)).length ∧
      ((ascon80pq_siv_encrypt [] [] [] []).2.drop ([] : List Nat).length = sivTag [] [] [] [] ∧
        ((ascon80pq_siv_decrypt [] (List.replicate 16 0) [] [] []).1 = 0 ↔
          sivTag ((ascon_siv_encrypt_8_80pq
            (ascon80pq_siv_init ((List.replicate 16 (0 : Nat)).drop
              ((List.replicate 16 (0 : Nat)).length - 16)) [] ASCON80PQ_IV2)
            ((List.replicate 16 (0 : Nat)).take ((List.replicate 16 (0 : Nat)).length - 16))
            6).2) [] [] [] = (List.replicate 16 (0 : Nat)).drop
              ((List.replicate 16 (0 : Nat)).length - 16))) :=
  ⟨by decide, siv_tag_pipeline [] [] [] [] [] (List.replicate 16 0) (by decide)⟩

theorem siv_encrypt_then_decrypt_witness :
    ([10, 11, 12, 13, 14, 15, 16, 17, 18, 19, 20, 21, 22, 23, 24, 25] : List Nat).length = 16 ∧
      ([0, 1, 2, 3, 4, 5, 6, 7, 8, 9, 10, 11, 12, 13, 14, 15, 16, 17, 18, 19] :
        List Nat).length = 20 ∧
      ascon80pq_siv_decrypt [7, 8]
          (ascon80pq_siv_encrypt [5] [6]
            [10, 11, 12, 13, 14, 15, 16, 17, 18, 19, 20, 21, 22, 23, 24, 25]
            [0, 1, 2, 3, 4, 5, 6, 7, 8, 9, 10, 11, 12, 13, 14, 15, 16, 17, 18, 19]).2 [6]
          [10, 11, 12, 13, 14, 15, 16, 17, 18, 19, 20, 21, 22, 23, 24, 25]
          [0, 1, 2, 3, 4, 5, 6, 7, 8, 9, 10, 11, 12, 13, 14, 15, 16, 17, 18, 19]
        = (0, [5] ++ [7, 8].drop ([5] : List Nat).length, some ([5] : List Nat).length) :=
  ⟨by decide, by decide,
    siv_encrypt_then_decrypt [5] [6]
      [10, 11, 12, 13, 14, 15, 16, 17, 18, 19, 20, 21, 22, 23, 24, 25]
      [0, 1, 2, 3, 4, 5, 6, 7, 8, 9, 10, 11, 12, 13, 14, 15, 16, 17, 18, 19] [7, 8] (by decide)
      (by decide)⟩

/-! ## Masked-permutation claim theorems -/

theorem invertA2_invertA2 (s : MState) : invertA2 (invertA2 s) = s := by
  cases s with
  | mk x0 x1 x2 x3 x4 =>
    cases x2 with
    | mk e o =>
      cases e
      cases o
      simp [invertA2]

/-- C10: calling `ascon_x4_permute` with `first_round = 12` is the identity:
the round loop body runs zero times, every share word is stored back
unchanged (the pre-inversion of X2's first-share words cancels against the
re-inversion at store time), and the six entropy words are written back to
the preserve pool equal to their input values. -/
theorem x4_permute_round12_identity (s : MState) (p : Pool) :
    ascon_x4_permute s 12 p = (s, p) := by
  unfold ascon_x4_permute
  simp [invertA2_invertA2]

theorem x4AltGo_spec : ∀ (rs : List Nat) (sp : MState × Pool), rs ≠ [] →
    rs.foldl (fun sp i => x4Round i sp) sp =
      ((x4AltGo sp rs).1, rotPool (x4AltGo sp rs).2) := by
  intro rs
  induction rs with
  | nil => intro sp h; exact absurd rfl h
  | cons i tl ih =>
    intro sp _
    cases tl with
    | nil => rfl
    | cons j tl2 =>
      rw [List.foldl_cons, ih (x4Round i sp) (by simp)]
      rfl

/-- C8: `ascon_x4_permute` consumes exactly the six 32-bit words of the
`Pool` structure of caller-supplied entropy; it equals the restructured
`ascon_x4_permute_alt` in which the reshare word t0 is rotated by 7, 13 and
29 bits (for the first, second and third share channels, on both halves)
between consecutive rounds, and on return the updated t0 words are written
back into the preserve pool. -/
theorem x4_permute_pool_contract (s : MState) (fr : Nat) (p : Pool) :
    ascon_x4_permute s fr p = ascon_x4_permute_alt s fr p := by
  unfold ascon_x4_permute ascon_x4_permute_alt
  by_cases h : 12 - fr = 0
  · simp [h, x4AltGo]
  · have hne : List.range' fr (12 - fr) ≠ [] := by
      rw [Ne, List.range'_eq_nil]
      exact h
    rw [x4AltGo_spec _ _ hne]
    simp [List.isEmpty_iff, hne]

/-! ## 32-bit word algebra for the masked-permutation proof -/

theorem rr32_getLsbD (n : Nat) (x : W32) (i : Nat) (h : i < 32) :
    (rr32 n x).getLsbD i = x.getLsbD ((i + n) % 32) := by
  rw [rr32, BitVec.getLsbD_rotateRight]
  have hn : (i + n) % 32 = (i + n % 32) % 32 := by
    conv_lhs => rw [Nat.add_comm, ← Nat.mod_add_mod, Nat.add_comm]
  by_cases hc : i < 32 - n % 32
  · have : (i + n % 32) % 32 = n % 32 + i := by
      have h32 : n % 32 < 32 := Nat.mod_lt _ (by omega)
      rw [Nat.mod_eq_of_lt (by omega)]
      omega
    simp [hc, hn, this]
  · have h32 : n % 32 < 32 := Nat.mod_lt _ (by omega)
    have : (i + n % 32) % 32 = i - (32 - n % 32) := by
      have h1 : i + n % 32 - 32 < 32 := by omega
      have h2 : i + n % 32 = (i + n % 32 - 32) + 1 * 32 := by omega
      rw [h2, Nat.add_mul_mod_self_right, Nat.mod_eq_of_lt h1]
      omega
    simp [hc, h, hn, this]

theorem rr32_rr32 (m n : Nat) (x : W32) : rr32 m (rr32 n x) = rr32 (m + n) x := by
  apply BitVec.eq_of_getLsbD_eq
  intro ⟨i, hi⟩
  rw [rr32_getLsbD _ _ _ hi, rr32_getLsbD _ _ _ (Nat.mod_lt _ (by omega)),
    rr32_getLsbD _ _ _ hi, Nat.mod_add_mod, Nat.add_assoc]

theorem rr32_zero (x : W32) : rr32 0 x = x := by
  apply BitVec.eq_of_getLsbD_eq
  intro ⟨i, hi⟩
  rw [rr32_getLsbD _ _ _ hi, Nat.add_zero, Nat.mod_eq_of_lt hi]

theorem rr32_reduce (n : Nat) (x : W32) (h : 32 ≤ n) : rr32 n x = rr32 (n - 32) x := by
  apply BitVec.eq_of_getLsbD_eq
  intro ⟨i, hi⟩
  rw [rr32_getLsbD _ _ _ hi, rr32_getLsbD _ _ _ hi]
  congr 1
  have : i + n = (i + (n - 32)) + 1 * 32 := by omega
  rw [this, Nat.add_mul_mod_self_right]

theorem rr32_xor (n : Nat) (x y : W32) : rr32 n (x ^^^ y) = rr32 n x ^^^ rr32 n y := by
  apply BitVec.eq_of_getLsbD_eq
  intro ⟨i, hi⟩
  simp [rr32_getLsbD _ _ _ hi, BitVec.getLsbD_xor]

theorem rr32_and (n : Nat) (x y : W32) : rr32 n (x &&& y) = rr32 n x &&& rr32 n y := by
  apply BitVec.eq_of_getLsbD_eq
  intro ⟨i, hi⟩
  simp [rr32_getLsbD _ _ _ hi, BitVec.getLsbD_and]

theorem rr32_not (n : Nat) (x : W32) : rr32 n (~~~x) = ~~~(rr32 n x) := by
  apply BitVec.eq_of_getLsbD_eq
  intro ⟨i, hi⟩
  simp [rr32_getLsbD _ _ _ hi, BitVec.getLsbD_not, hi, Nat.mod_lt]

theorem rr32_allOnes (n : Nat) : rr32 n (BitVec.allOnes 32) = BitVec.allOnes 32 := by
  apply BitVec.eq_of_getLsbD_eq
  intro ⟨i, hi⟩
  rw [rr32_getLsbD _ _ _ hi, BitVec.getLsbD_allOnes, BitVec.getLsbD_allOnes]
  simp [hi, Nat.mod_lt]

theorem bv_and_xor_right (x y z : W32) : (x ^^^ y) &&& z = (x &&& z) ^^^ (y &&& z) := by
  apply BitVec.eq_of_getLsbD_eq
  intro ⟨i, hi⟩
  simp [BitVec.getLsbD_and, BitVec.getLsbD_xor, Bool.and_xor_distrib_right]

theorem bv_and_xor_left (x y z : W32) : x &&& (y ^^^ z) = (x &&& y) ^^^ (x &&& z) := by
  apply BitVec.eq_of_getLsbD_eq
  intro ⟨i, hi⟩
  simp [BitVec.getLsbD_and, BitVec.getLsbD_xor, Bool.and_xor_distrib_left]

theorem bv_not_eq_xor (x : W32) : ~~~x = x ^^^ BitVec.allOnes 32 := by
  apply BitVec.eq_of_getLsbD_eq
  intro ⟨i, hi⟩
  rw [BitVec.getLsbD_not, BitVec.getLsbD_xor, BitVec.getLsbD_allOnes]
  cases hx : x.getLsbD i <;> simp [hi, hx]

theorem bv_and_allOnes (x : W32) : x &&& BitVec.allOnes 32 = x := by
  apply BitVec.eq_of_getLsbD_eq
  intro ⟨i, hi⟩
  rw [BitVec.getLsbD_and, BitVec.getLsbD_allOnes]
  simp [hi]

theorem bv_allOnes_and (x : W32) : BitVec.allOnes 32 &&& x = x := by
  apply BitVec.eq_of_getLsbD_eq
  intro ⟨i, hi⟩
  rw [BitVec.getLsbD_and, BitVec.getLsbD_allOnes]
  simp [hi]

theorem bv_xor_left_comm (x y z : W32) : x ^^^ (y ^^^ z) = y ^^^ (x ^^^ z) := by
  rw [← BitVec.xor_assoc, BitVec.xor_comm x y, BitVec.xor_assoc]

theorem bv_xor_cancel (x y : W32) : x ^^^ (x ^^^ y) = y := by
  rw [← BitVec.xor_assoc, BitVec.xor_self, BitVec.zero_xor]

theorem bv_xor_not_swap (x y : W32) : x ^^^ ~~~y = ~~~x ^^^ y := by
  apply BitVec.eq_of_getLsbD_eq
  intro ⟨i, hi⟩
  rw [BitVec.getLsbD_xor, BitVec.getLsbD_xor, BitVec.getLsbD_not, BitVec.getLsbD_not]
  cases hx : x.getLsbD i <;> cases hy : y.getLsbD i <;> simp [hi, hx, hy]

theorem bv_not_xor (x y : W32) : ~~~(x ^^^ y) = ~~~x ^^^ y := by
  apply BitVec.eq_of_getLsbD_eq
  intro ⟨i, hi⟩
  rw [BitVec.getLsbD_not, BitVec.getLsbD_xor, BitVec.getLsbD_xor, BitVec.getLsbD_not]
  cases hx : x.getLsbD i <;> cases hy : y.getLsbD i <;> simp [hi, hx, hy]

/-! ## Unshare morphisms -/

theorem unsh_shXor (x y : Sh) : unsh (shXor x y) = unsh x ^^^ unsh y := by
  simp only [unsh, shXor, ascon_mask32_unrotate_share1_0, ascon_mask32_unrotate_share2_0,
    ascon_mask32_unrotate_share3_0, rr32_xor]
  simp [BitVec.xor_assoc, BitVec.xor_comm, bv_xor_left_comm]

theorem unsh_rcA (x : Sh) (rc : W32) :
    unsh ⟨x.a ^^^ rc, x.b, x.c, x.d⟩ = unsh x ^^^ rc := by
  simp only [unsh, ascon_mask32_unrotate_share1_0, ascon_mask32_unrotate_share2_0,
    ascon_mask32_unrotate_share3_0]
  simp [BitVec.xor_assoc, BitVec.xor_comm, bv_xor_left_comm]

theorem unsh_notA (x : Sh) : unsh ⟨~~~x.a, x.b, x.c, x.d⟩ = ~~~(unsh x) := by
  simp only [unsh, bv_not_xor]

theorem unsh_xorA (a b c d rc : W32) : unsh ⟨a ^^^ rc, b, c, d⟩ = unsh ⟨a, b, c, d⟩ ^^^ rc := by
  simp only [unsh]
  simp [BitVec.xor_assoc, BitVec.xor_comm, bv_xor_left_comm]

theorem unsh_notAc (a b c d : W32) : unsh ⟨~~~a, b, c, d⟩ = ~~~(unsh ⟨a, b, c, d⟩) := by
  simp only [unsh, bv_not_xor]

theorem sh_eta (x : Sh) : (⟨x.a, x.b, x.c, x.d⟩ : Sh) = x := rfl

theorem unsh_t0d (ta tb tc : W32) :
    unsh ⟨ta, tb, tc,
        ascon_mask32_rotate_share3_0 ta ^^^ ascon_mask32_rotate_share3_1 tb ^^^
          ascon_mask32_rotate_share3_2 tc⟩ = 0#32 := by
  simp only [unsh, ascon_mask32_rotate_share3_0, ascon_mask32_rotate_share3_1,
    ascon_mask32_rotate_share3_2, ascon_mask32_unrotate_share1_0,
    ascon_mask32_unrotate_share2_0, ascon_mask32_unrotate_share3_0, rr32_xor, rr32_rr32,
    Nat.reduceAdd]
  rw [rr32_reduce 32 _ (by omega), Nat.sub_self, rr32_zero]
  simp [BitVec.xor_assoc, BitVec.xor_comm, bv_xor_left_comm, BitVec.xor_self, bv_xor_cancel,
    BitVec.xor_zero, BitVec.zero_xor]

set_option maxHeartbeats 2000000 in
theorem unsh_andNotXor (x y z : Sh) :
    unsh (and_not_xor x y z) = unsh x ^^^ (~~~(unsh y) &&& unsh z) := by
  simp only [and_not_xor, unsh, ascon_mask32_rotate_share1_0, ascon_mask32_rotate_share2_0,
    ascon_mask32_rotate_share2_1, ascon_mask32_rotate_share3_0, ascon_mask32_rotate_share3_1,
    ascon_mask32_rotate_share3_2, ascon_mask32_unrotate_share1_0,
    ascon_mask32_unrotate_share2_0, ascon_mask32_unrotate_share2_1,
    ascon_mask32_unrotate_share3_0, ascon_mask32_unrotate_share3_1,
    ascon_mask32_unrotate_share3_2, rr32_xor, rr32_and, rr32_not, rr32_rr32, Nat.reduceAdd,
    bv_not_xor, bv_and_xor_right, bv_and_xor_left]
  simp only [rr32_reduce 54 _ (by omega), rr32_reduce 49 _ (by omega),
    rr32_reduce 32 _ (by omega), Nat.reduceSub, Nat.sub_self, rr32_zero]
  simp [BitVec.xor_assoc, BitVec.xor_comm, bv_xor_left_comm]

/-! ## The linear layer commutes with unsharing -/

theorem unsh_chanMap2_lin0 (we wo : Sh) :
    unsh (chanMap2 lin0 we wo).1 = (lin0 (unsh we) (unsh wo)).1 ∧
      unsh (chanMap2 lin0 we wo).2 = (lin0 (unsh we) (unsh wo)).2 := by
  constructor <;>
    simp [chanMap2, lin0, unsh, ascon_mask32_unrotate_share1_0, ascon_mask32_unrotate_share2_0,
      ascon_mask32_unrotate_share3_0, rr32_xor, rr32_rr32, rr32_reduce, rr32_zero,
      BitVec.xor_assoc, BitVec.xor_comm, bv_xor_left_comm]

theorem unsh_chanMap2_lin1 (we wo : Sh) :
    unsh (chanMap2 lin1 we wo).1 = (lin1 (unsh we) (unsh wo)).1 ∧
      unsh (chanMap2 lin1 we wo).2 = (lin1 (unsh we) (unsh wo)).2 := by
  constructor <;>
    simp [chanMap2, lin1, unsh, ascon_mask32_unrotate_share1_0, ascon_mask32_unrotate_share2_0,
      ascon_mask32_unrotate_share3_0, rr32_xor, rr32_rr32, rr32_reduce, rr32_zero,
      BitVec.xor_assoc, BitVec.xor_comm, bv_xor_left_comm]

theorem unsh_chanMap2_lin2 (we wo : Sh) :
    unsh (chanMap2 lin2 we wo).1 = (lin2 (unsh we) (unsh wo)).1 ∧
      unsh (chanMap2 lin2 we wo).2 = (lin2 (unsh we) (unsh wo)).2 := by
  constructor <;>
    simp [chanMap2, lin2, unsh, ascon_mask32_unrotate_share1_0, ascon_mask32_unrotate_share2_0,
      ascon_mask32_unrotate_share3_0, rr32_xor, rr32_rr32, rr32_reduce, rr32_zero,
      BitVec.xor_assoc, BitVec.xor_comm, bv_xor_left_comm]

theorem unsh_chanMap2_lin3 (we wo : Sh) :
    unsh (chanMap2 lin3 we wo).1 = (lin3 (unsh we) (unsh wo)).1 ∧
      unsh (chanMap2 lin3 we wo).2 = (lin3 (unsh we) (unsh wo)).2 := by
  constructor <;>
    simp [chanMap2, lin3, unsh, ascon_mask32_unrotate_share1_0, ascon_mask32_unrotate_share2_0,
      ascon_mask32_unrotate_share3_0, rr32_xor, rr32_rr32, rr32_reduce, rr32_zero,
      BitVec.xor_assoc, BitVec.xor_comm, bv_xor_left_comm]

theorem unsh_chanMap2_lin4 (we wo : Sh) :
    unsh (chanMap2 lin4 we wo).1 = (lin4 (unsh we) (unsh wo)).1 ∧
      unsh (chanMap2 lin4 we wo).2 = (lin4 (unsh we) (unsh wo)).2 := by
  constructor <;>
    simp [chanMap2, lin4, unsh, ascon_mask32_unrotate_share1_0, ascon_mask32_unrotate_share2_0,
      ascon_mask32_unrotate_share3_0, rr32_xor, rr32_rr32, rr32_reduce, rr32_zero,
      BitVec.xor_assoc, BitVec.xor_comm, bv_xor_left_comm]

theorem rr32_allOnesLit (n : Nat) : rr32 n (4294967295#32) = 4294967295#32 := by
  rw [show (4294967295#32 : W32) = BitVec.allOnes 32 by decide]
  exact rr32_allOnes n

theorem lin2_not (e o : W32) :
    (lin2 (~~~e) (~~~o)).1 = ~~~((lin2 e o).1) ∧ (lin2 (~~~e) (~~~o)).2 = ~~~((lin2 e o).2) := by
  constructor <;>
    simp [lin2, bv_not_eq_xor, rr32_xor, rr32_rr32, Nat.reduceAdd, rr32_allOnes,
      rr32_allOnesLit, BitVec.xor_assoc, BitVec.xor_comm, bv_xor_left_comm, BitVec.xor_self,
      BitVec.xor_zero, BitVec.zero_xor, bv_xor_cancel]

/-! ## The substitution layer commutes with unsharing

The masked substitution (with pre-inverted round constant, and no final
complement of X2) unshares to the spec's substitution with the plain round
constant, where the plain X2 input is the complement of the masked X2's
unshared value and the plain X2 output is the complement of the masked X2
output's unshared value. -/

theorem mSubst_unsh (rc : W32) (x0 x1 x2 x3 x4 : Sh) (ta tb tc : W32) :
    unsh (mSubst (~~~rc) x0 x1 x2 x3 x4 ta tb tc).y0
        = (sSubst rc (unsh x0) (unsh x1) (~~~(unsh x2)) (unsh x3) (unsh x4)).y0 ∧
      unsh (mSubst (~~~rc) x0 x1 x2 x3 x4 ta tb tc).y1
        = (sSubst rc (unsh x0) (unsh x1) (~~~(unsh x2)) (unsh x3) (unsh x4)).y1 ∧
      unsh (mSubst (~~~rc) x0 x1 x2 x3 x4 ta tb tc).y2
        = ~~~((sSubst rc (unsh x0) (unsh x1) (~~~(unsh x2)) (unsh x3) (unsh x4)).y2) ∧
      unsh (mSubst (~~~rc) x0 x1 x2 x3 x4 ta tb tc).y3
        = (sSubst rc (unsh x0) (unsh x1) (~~~(unsh x2)) (unsh x3) (unsh x4)).y3 ∧
      unsh (mSubst (~~~rc) x0 x1 x2 x3 x4 ta tb tc).y4
        = (sSubst rc (unsh x0) (unsh x1) (~~~(unsh x2)) (unsh x3) (unsh x4)).y4 := by
  refine ⟨?_, ?_, ?_, ?_, ?_⟩ <;>
    simp only [mSubst, sSubst, unsh_shXor, unsh_andNotXor, unsh_xorA, unsh_notAc, sh_eta,
      unsh_t0d, BitVec.zero_xor, bv_xor_not_swap, BitVec.not_not]

theorem RCX4_getD (i : Nat) (h : i < 12) :
    RCX4.getD i (0#32, 0#32) = (~~~(sRCe.getD i 0), ~~~(sRCo.getD i 0)) := by
  interval_cases i <;> rfl

theorem unshState_invertA2 (s : MState) : unshState (invertA2 s) = invE2 (unshState s) := by
  simp only [unshState, invertA2, invE2, unshMW, unsh_notAc, sh_eta]

theorem invE2_invE2 (t : SState) : invE2 (invE2 t) = t := by
  cases t with
  | mk x0 x1 x2 x3 x4 =>
    cases x2
    simp [invE2, BitVec.not_not]

theorem x4Round_unsh (i : Nat) (h : i < 12) (s : MState) (p : Pool) :
    unshState ((x4Round i (s, p)).1) = invE2 (sRound i (invE2 (unshState s))) := by
  obtain ⟨he0, he1, he2, he3, he4⟩ := mSubst_unsh (sRCe.getD i 0) s.x0.e s.x1.e s.x2.e s.x3.e
    s.x4.e p.ae p.be p.ce
  obtain ⟨ho0, ho1, ho2, ho3, ho4⟩ := mSubst_unsh (sRCo.getD i 0) s.x0.o s.x1.o s.x2.o s.x3.o
    s.x4.o p.ao p.bo p.co
  unfold x4Round x4RoundCore sRound invE2 unshState unshMW
  rw [RCX4_getD i h]
  dsimp only
  simp only [SState.mk.injEq, SW.mk.injEq]
  refine ⟨⟨?_, ?_⟩, ⟨?_, ?_⟩, ⟨?_, ?_⟩, ⟨?_, ?_⟩, ⟨?_, ?_⟩⟩
  · rw [(unsh_chanMap2_lin0 _ _).1, he0, ho0]
  · rw [(unsh_chanMap2_lin0 _ _).2, he0, ho0]
  · rw [(unsh_chanMap2_lin1 _ _).1, he1, ho1]
  · rw [(unsh_chanMap2_lin1 _ _).2, he1, ho1]
  · rw [(unsh_chanMap2_lin2 _ _).1, he2, ho2, (lin2_not _ _).1]
  · rw [(unsh_chanMap2_lin2 _ _).2, he2, ho2, (lin2_not _ _).2]
  · rw [(unsh_chanMap2_lin3 _ _).1, he3, ho3]
  · rw [(unsh_chanMap2_lin3 _ _).2, he3, ho3]
  · rw [(unsh_chanMap2_lin4 _ _).1, he4, ho4]
  · rw [(unsh_chanMap2_lin4 _ _).2, he4, ho4]

theorem fold_unsh (rs : List Nat) : (∀ i ∈ rs, i < 12) → ∀ (s : MState) (p : Pool),
    unshState ((rs.foldl (fun sp i => x4Round i sp) (s, p)).1)
      = rs.foldl (fun t i => invE2 (sRound i (invE2 t))) (unshState s) := by
  induction rs with
  | nil => intro _ s p; rfl
  | cons i tl ih =>
    intro hmem s p
    rw [List.foldl_cons, List.foldl_cons]
    rw [show x4Round i (s, p) = ((x4Round i (s, p)).1, (x4Round i (s, p)).2) from rfl]
    rw [ih (fun j hj => hmem j (List.mem_cons_of_mem i hj)) _ _]
    rw [x4Round_unsh i (hmem i (List.mem_cons_self i tl)) s p]

theorem conj_fold (rs : List Nat) : ∀ t : SState,
    invE2 (rs.foldl (fun t i => invE2 (sRound i (invE2 t))) (invE2 t))
      = rs.foldl (fun t i => sRound i t) t := by
  induction rs with
  | nil => intro t; exact invE2_invE2 t
  | cons i tl ih =>
    intro t
    rw [List.foldl_cons, List.foldl_cons, invE2_invE2, ih (sRound i t)]

/-- C2: for every 4-share masked state, every `first_round`, and every 6-word
entropy pool, unsharing the masked state produced by `ascon_x4_permute`
yields exactly, bit for bit, the state produced by the unmasked (spec-modelled
bit-sliced) ASCON permutation applied to the unshared input state with the
same `first_round`. -/
theorem x4_permute_unshares (s : MState) (fr : Nat) (p : Pool) :
    unshState (ascon_x4_permute s fr p).1 = ascon_permute_c32 (unshState s) fr := by
  unfold ascon_x4_permute ascon_permute_c32
  dsimp only
  have hmem : ∀ i ∈ List.range' fr (12 - fr), i < 12 := by
    intro i hi
    rw [List.mem_range'_1] at hi
    omega
  rw [unshState_invertA2, fold_unsh _ hmem (invertA2 s) p, unshState_invertA2 s]
  exact conj_fold _ (unshState s)
